import Mathlib

/-!
Shallow embedding of `src/main.py` (sync_ssd): a two-way directory
synchronizer with pre-mutation backups.  Relative paths are lists of
components, file systems are association lists from paths to files, and the
per-pair orchestration (`process_pair`) is modelled as a pure state
transformer.  Modification times are modelled as exact rationals (the float
tolerance literal `1e-3` becomes the exact rational `1/1000`).
-/

/-! ## Basic data: paths and association lists -/

/-- Relative path, as the list of its components (Python `Path` relative to
a tree root, e.g. `a/b.txt` becomes `["a", "b.txt"]`). -/
abbrev RelPath := List String

/-- Association-list lookup (models Python dict / directory entry lookup). -/
def alookup {κ α : Type} [DecidableEq κ] : List (κ × α) → κ → Option α
  | [], _ => none
  | e :: rest, k => if e.1 = k then some e.2 else alookup rest k

/-- Association-list deletion (models `os.unlink` / dict key removal). -/
def adel {κ α : Type} [DecidableEq κ] (m : List (κ × α)) (k : κ) : List (κ × α) :=
  m.filter (fun e => decide (e.1 ≠ k))

/-- Association-list update (models writing a file at a path, overwriting
any previous entry). -/
def aset {κ α : Type} [DecidableEq κ] (m : List (κ × α)) (k : κ) (v : α) : List (κ × α) :=
  (k, v) :: adel m k

/-! ## File metadata and the diff engine (source lines 62-113) -/

/-- File metadata recorded by the scanner (source: class `FileMeta`,
lines 64-69): size in bytes and modification time in seconds. -/
structure FileMeta where
  size : Nat
  mtime : ℚ
deriving DecidableEq

instance : Inhabited FileMeta := ⟨⟨0, 0⟩⟩

/-- Source: `FileMeta.newer_than` (lines 71-72):
`self.mtime > other.mtime + 1e-3` — strict inequality with a 1 ms
tolerance. -/
def FileMeta.newer_than (a b : FileMeta) : Bool :=
  decide (a.mtime > b.mtime + 1/1000)

/-- A scanner result: relative path to metadata (source: `scan_tree` return
type `Dict[Path, FileMeta]`). -/
abbrev Snapshot := List (RelPath × FileMeta)

/-- Action tags (source line 87:
`Action = Tuple[str, Path]` with the four string tags). -/
inductive ActionKind where
  | COPY_LOCAL_TO_SSD
  | COPY_SSD_TO_LOCAL
  | DELETE_SSD
  | UPDATE_SSD
deriving DecidableEq

/-- Lexicographic comparison of relative paths by components (Python sorts
`Path` objects by their parts tuple). -/
def pathLe : RelPath → RelPath → Bool
  | [], _ => true
  | _ :: _, [] => false
  | a :: r1, b :: r2 => if a = b then pathLe r1 r2 else decide (a < b)

/-- Insertion step of the sorting used to model Python `sorted`. -/
def insertPath (p : RelPath) : List RelPath → List RelPath
  | [] => [p]
  | q :: rest => if pathLe p q then p :: q :: rest else q :: insertPath p rest

/-- Sorting used to model Python `sorted` over path sets; the claims below
depend only on it being a permutation. -/
def sortPaths : List RelPath → List RelPath
  | [] => []
  | p :: rest => insertPath p (sortPaths rest)

/-- The key set of a snapshot or file-system map. -/
def keys {α : Type} (m : List (RelPath × α)) : List RelPath := m.map Prod.fst

/-- Sorted union of the two key sets (source lines 92-93:
`all_paths = set(local) | set(ssd)`, iterated with `sorted`). -/
def allPaths (localSnap ssdSnap : Snapshot) : List RelPath :=
  sortPaths ((keys localSnap ++ keys ssdSnap).dedup)

/-- Per-path decision of the diff engine, factored out of the loop body of
`build_diff` (source lines 94-112): given the optional metadata on each side
and the delete policy, the proposed action for that path, if any. -/
def diffAction (l s : Option FileMeta) (delete_policy : String) : Option ActionKind :=
  match l, s with
  | some _, none => some .COPY_LOCAL_TO_SSD
  | none, some _ =>
      if delete_policy = "mirror" then some .DELETE_SSD
      else if delete_policy = "sync" then some .COPY_SSD_TO_LOCAL
      else none
  | some lm, some sm =>
      if lm.newer_than sm then some .UPDATE_SSD
      else if sm.newer_than lm then some .COPY_SSD_TO_LOCAL
      else none
  | none, none => none

/-- Source: `build_diff` (lines 90-113): iterate the sorted union of paths
and emit at most one action per path. -/
def build_diff (localSnap ssdSnap : Snapshot) (delete_policy : String) :
    List (ActionKind × RelPath) :=
  (allPaths localSnap ssdSnap).filterMap (fun rel =>
    (diffAction (alookup localSnap rel) (alookup ssdSnap rel) delete_policy).map
      (fun k => (k, rel)))

/-- The actions of a plan that concern the path `p`. -/
def pathActions (plan : List (ActionKind × RelPath)) (p : RelPath) :
    List (ActionKind × RelPath) :=
  plan.filter (fun a => decide (a.2 = p))

/-! ## Files, flat trees and the copy primitives (source lines 115-137) -/

/-- A file as stored on disk: its byte sequence and modification time
(`shutil.copy2` copies both; `stat.st_size` is the byte count). -/
structure File where
  data : List Nat
  mtime : ℚ
deriving DecidableEq

/-- The metadata the scanner records for a file (`stat.st_size`,
`stat.st_mtime`, source lines 82-83). -/
def File.meta (f : File) : FileMeta := ⟨f.data.length, f.mtime⟩

/-- One side's tree as the flat map of its regular files, keyed by relative
path. -/
abbrev FS := List (RelPath × File)

/-- The snapshot `scan_tree` yields on a fully readable tree, as a function
of the flat file map (source lines 75-84). -/
def metaMap (fs : FS) : Snapshot := fs.map (fun e => (e.1, e.2.meta))

/-- Temporary sibling used by `safe_copy` (source line 130):
`dst.with_suffix(dst.suffix + ".tmp")`, i.e. the last path component with
`".tmp"` appended. -/
def tmpPath : RelPath → RelPath
  | [] => [".tmp"]
  | [s] => [s ++ ".tmp"]
  | s :: rest => s :: tmpPath rest

/-- Source: `copy_for_backup` (lines 124-126): create parent directories
and `shutil.copy2` the file to the destination path of the given folder. -/
def copy_for_backup (folder : FS) (rel : RelPath) (f : File) : FS :=
  aset folder rel f

/-- Source: `safe_copy` (lines 129-133): `shutil.copy2` to the temporary
sibling, then `os.replace` it over the destination.  The net effect on the
destination map: the destination holds the copied file and the sibling
entry is gone. -/
def safe_copy (fs : FS) (dst : RelPath) (f : File) : FS :=
  adel (aset (aset fs (tmpPath dst) f) dst f) (tmpPath dst)

/-- Source: `delete_path` (lines 136-137). -/
def delete_path (fs : FS) (p : RelPath) : FS := adel fs p

/-- Crash model for `safe_copy`: the destination-side states observable if
the process stops between the start of the temporary-file write and the
final rename.  Any prefix of the bytes may have reached the temporary
sibling (with an arbitrary intermediate mtime `m`); the final `os.replace`
has not happened. -/
def safe_copy_crash_states (fs : FS) (dst : RelPath) (f : File) (m : ℚ) : List FS :=
  fs :: f.data.inits.map (fun part => aset fs (tmpPath dst) ⟨part, m⟩)

/-! ## Timestamp parsing and retention (source lines 117-121, 141-152) -/

/-- Decimal value of an ASCII digit character. -/
def dv (c : Char) : Nat := c.toNat - 48

/-- The six fields captured by
`datetime.strptime(name, "%Y%m%d-%H%M%S")`. -/
structure TS where
  y : Nat
  m : Nat
  d : Nat
  hh : Nat
  mi : Nat
  ss : Nat
deriving DecidableEq

/-- Regex fragment for `%Y`: four digits. -/
def pY {σ : Type} (cs : List Char) (k : Nat → List Char → Option σ) : Option σ :=
  match cs with
  | c1 :: c2 :: c3 :: c4 :: r =>
      if c1.isDigit ∧ c2.isDigit ∧ c3.isDigit ∧ c4.isDigit then
        k (1000 * dv c1 + 100 * dv c2 + 10 * dv c3 + dv c4) r
      else none
  | _ => none

/-- Regex fragment for `%m`: alternatives `1[0-2]`, `0[1-9]`, `[1-9]`,
tried in this order with backtracking through the continuation. -/
def pMon {σ : Type} (cs : List Char) (k : Nat → List Char → Option σ) : Option σ :=
  (match cs with
   | '1' :: c :: r => if '0' ≤ c ∧ c ≤ '2' then k (10 + dv c) r else none
   | _ => none).orElse (fun _ =>
  (match cs with
   | '0' :: c :: r => if '1' ≤ c ∧ c ≤ '9' then k (dv c) r else none
   | _ => none).orElse (fun _ =>
  match cs with
  | c :: r => if '1' ≤ c ∧ c ≤ '9' then k (dv c) r else none
  | _ => none))

/-- Regex fragment for `%d`: `3[01]`, `[12][0-9]`, `0[1-9]`, `[1-9]`. -/
def pDay {σ : Type} (cs : List Char) (k : Nat → List Char → Option σ) : Option σ :=
  (match cs with
   | '3' :: c :: r => if c = '0' ∨ c = '1' then k (30 + dv c) r else none
   | _ => none).orElse (fun _ =>
  (match cs with
   | c1 :: c2 :: r =>
       if (c1 = '1' ∨ c1 = '2') ∧ c2.isDigit then k (10 * dv c1 + dv c2) r else none
   | _ => none).orElse (fun _ =>
  (match cs with
   | '0' :: c :: r => if '1' ≤ c ∧ c ≤ '9' then k (dv c) r else none
   | _ => none).orElse (fun _ =>
  match cs with
  | c :: r => if '1' ≤ c ∧ c ≤ '9' then k (dv c) r else none
  | _ => none)))

/-- Regex fragment for `%H`: `2[0-3]`, `[0-1][0-9]`, `[0-9]`. -/
def pHour {σ : Type} (cs : List Char) (k : Nat → List Char → Option σ) : Option σ :=
  (match cs with
   | '2' :: c :: r => if '0' ≤ c ∧ c ≤ '3' then k (20 + dv c) r else none
   | _ => none).orElse (fun _ =>
  (match cs with
   | c1 :: c2 :: r =>
       if (c1 = '0' ∨ c1 = '1') ∧ c2.isDigit then k (10 * dv c1 + dv c2) r else none
   | _ => none).orElse (fun _ =>
  match cs with
  | c :: r => if c.isDigit then k (dv c) r else none
  | _ => none))

/-- Regex fragment for `%M`: `[0-5][0-9]`, `[0-9]`. -/
def pMinu {σ : Type} (cs : List Char) (k : Nat → List Char → Option σ) : Option σ :=
  (match cs with
   | c1 :: c2 :: r =>
       if ('0' ≤ c1 ∧ c1 ≤ '5') ∧ c2.isDigit then k (10 * dv c1 + dv c2) r else none
   | _ => none).orElse (fun _ =>
  match cs with
  | c :: r => if c.isDigit then k (dv c) r else none
  | _ => none)

/-- Regex fragment for `%S`: `6[0-1]`, `[0-5][0-9]`, `[0-9]` (leap seconds
are allowed by the character class and later rejected by the `datetime`
constructor). -/
def pSec {σ : Type} (cs : List Char) (k : Nat → List Char → Option σ) : Option σ :=
  (match cs with
   | '6' :: c :: r => if c = '0' ∨ c = '1' then k (60 + dv c) r else none
   | _ => none).orElse (fun _ =>
  (match cs with
   | c1 :: c2 :: r =>
       if ('0' ≤ c1 ∧ c1 ≤ '5') ∧ c2.isDigit then k (10 * dv c1 + dv c2) r else none
   | _ => none).orElse (fun _ =>
  match cs with
  | c :: r => if c.isDigit then k (dv c) r else none
  | _ => none))

/-- First match of the compiled regex for `"%Y%m%d-%H%M%S"` (CPython
`_strptime` character classes over ASCII digits), returning the six
captured fields and the unconsumed remainder.  Alternatives are explored in
the regex's order, and the continuation style reproduces its backtracking,
so the overall first complete match wins exactly as in `re.match`. -/
def matchTS (cs : List Char) : Option (TS × List Char) :=
  pY cs (fun y r1 =>
    pMon r1 (fun mo r2 =>
      pDay r2 (fun da r3 =>
        match r3 with
        | '-' :: r4 =>
            pHour r4 (fun h r5 =>
              pMinu r5 (fun mi r6 =>
                pSec r6 (fun se r7 => some (⟨y, mo, da, h, mi, se⟩, r7))))
        | _ => none)))

/-- Leap year of the proleptic Gregorian calendar (Python `datetime`). -/
def isLeap (y : Nat) : Bool := y % 4 == 0 && (y % 100 != 0 || y % 400 == 0)

/-- Length of a month (month is within 1..12 whenever this is reached). -/
def daysInMonth (y m : Nat) : Nat :=
  if m = 2 then (if isLeap y then 29 else 28)
  else if m = 4 ∨ m = 6 ∨ m = 9 ∨ m = 11 then 30
  else 31

/-- Source: `datetime.strptime(ts_dir.name, "%Y%m%d-%H%M%S")` (line 147).
After the regex phase the whole string must have been consumed
(`unconverted data remains` otherwise) and the `datetime` constructor
validates the field ranges (year at least 1, day within the month, second
at most 59; months, hours and minutes are already bounded by the character
classes).  `none` models the `ValueError` caught at line 148. -/
def strptimeTS (s : String) : Option TS :=
  match matchTS s.toList with
  | none => none
  | some (t, rest) =>
      if rest = [] ∧ 1 ≤ t.y ∧ t.d ≤ daysInMonth t.y t.m ∧ t.ss ≤ 59 then some t
      else none

/-- Days contributed by the full months before month `m` of year `y`. -/
def daysBeforeMonth (y m : Nat) : Nat :=
  (List.range' 1 (m - 1)).foldl (fun acc i => acc + daysInMonth y i) 0

/-- Proleptic-Gregorian ordinal of a date (Python `datetime.toordinal`). -/
def toOrdinal (y m d : Nat) : Nat :=
  365 * (y - 1) + (y - 1) / 4 - (y - 1) / 100 + (y - 1) / 400 + daysBeforeMonth y m + d

/-- A parsed timestamp as seconds on the `datetime` subtraction scale. -/
def tsToSec (t : TS) : Nat :=
  86400 * toOrdinal t.y t.m t.d + 3600 * t.hh + 60 * t.mi + t.ss

/-- The condition of line 150, `now - ts > timedelta(days=retention_days)`,
for an immediate child of the pair backup directory named `name`; `false`
when the name does not parse (the `continue` of line 149). -/
def purgeRemoves (now : ℚ) (retention : Nat) (name : String) : Bool :=
  match strptimeTS name with
  | none => false
  | some t => decide (now - (tsToSec t : ℚ) > 86400 * (retention : ℚ))

/-- A per-pair backup timestamp folder: its files by relative path. -/
abbrev BFolder := FS

/-- Source: `purge_old_backups` (lines 141-152): every immediate child of
the pair's backup directory whose name parses as a timestamp strictly older
than the retention window is removed recursively (`shutil.rmtree`); all
other children are kept. -/
def purge_old_backups (dirs : List (String × BFolder)) (now : ℚ) (retention : Nat) :
    List (String × BFolder) :=
  dirs.filter (fun e => ! purgeRemoves now retention e.1)

/-! ## Execution engine and pair orchestration (source lines 117-121, 172-211) -/

/-- Source: `make_ts_folder` (lines 117-121): create
`backup_root/pair_name/<ts>` with `parents=True, exist_ok=True`. -/
def make_ts_folder (dirs : List (String × BFolder)) (ts : String) :
    List (String × BFolder) :=
  if (alookup dirs ts).isSome then dirs else dirs ++ [(ts, [])]

/-- The per-pair state `process_pair` reads and mutates: the two trees (as
flat file maps) and the pair's backup directory (timestamp folder name to
the files inside that folder). -/
structure PairState where
  localFS : FS
  ssdFS : FS
  pairBackup : List (String × BFolder)
deriving DecidableEq

/-- Write a backup copy into the run's timestamp folder:
`copy_for_backup(ssd_path, ts_folder / rel)` at line 201. -/
def backupInto (dirs : List (String × BFolder)) (ts : String) (rel : RelPath) (f : File) :
    List (String × BFolder) :=
  dirs.map (fun e => if e.1 = ts then (e.1, copy_for_backup e.2 rel f) else e)

/-- Execution of one plan action (source lines 194-211).  Mirror-mutating
actions first back up the existing mirror file, if any; a copy whose source
file is missing raises inside the per-action `try` (line 210) and the
action is skipped; `DELETE_SSD` unlinks the mirror file. -/
def execAction (ts : String) (st : PairState) (a : ActionKind × RelPath) : PairState :=
  let rel := a.2
  let st1 :=
    if a.1 = .UPDATE_SSD ∨ a.1 = .DELETE_SSD ∨ a.1 = .COPY_LOCAL_TO_SSD then
      match alookup st.ssdFS rel with
      | some f => { st with pairBackup := backupInto st.pairBackup ts rel f }
      | none => st
    else st
  match a.1 with
  | .COPY_LOCAL_TO_SSD | .UPDATE_SSD =>
      match alookup st1.localFS rel with
      | some f => { st1 with ssdFS := safe_copy st1.ssdFS rel f }
      | none => st1
  | .COPY_SSD_TO_LOCAL =>
      match alookup st1.ssdFS rel with
      | some f => { st1 with localFS := safe_copy st1.localFS rel f }
      | none => st1
  | .DELETE_SSD => { st1 with ssdFS := delete_path st1.ssdFS rel }

/-- Source: `process_pair` (lines 172-211): purge expired backups, scan the
two sides, build the plan, stop after logging when in dry-run mode,
otherwise create the run's timestamp folder and execute the plan in order.
`ts` is the wall-clock name `make_ts_folder` would stamp, `now` the
wall-clock time `purge_old_backups` compares against. -/
def process_pair (dry : Bool) (delete_policy : String) (ts : String) (now : ℚ)
    (retention : Nat) (st : PairState) : PairState :=
  let st1 : PairState :=
    { st with pairBackup := purge_old_backups st.pairBackup now retention }
  let plan := build_diff (metaMap st1.localFS) (metaMap st1.ssdFS) delete_policy
  if dry then st1
  else
    let st2 : PairState := { st1 with pairBackup := make_ts_folder st1.pairBackup ts }
    plan.foldl (execAction ts) st2

/-! ## The metadata scanner over real trees (source lines 75-84) -/

/-- A directory tree as the scanner sees it: regular files carry their
content and mtime, directories carry a readability flag and named children,
`special` stands for any non-regular entry (symlink-as-such, device, ...). -/
inductive FSNode where
  | file : File → FSNode
  | special : FSNode
  | dir : Bool → List (String × FSNode) → FSNode

/-- The `path.is_file()` filter of the scan loop (source lines 79-83): a
child that is a regular file contributes one snapshot entry, any other
child contributes none at its own path. -/
def fileEntry (name : String) : FSNode → List (RelPath × FileMeta)
  | .file f => [([name], f.meta)]
  | .special => []
  | .dir _ _ => []

mutual

/-- Entries `root.rglob("*")` produces below one node (source lines 78-83):
regular files are recorded with their path relative to the node and their
stat metadata; directories and special entries fail `is_file` and are
skipped; listing an unreadable directory raises `PermissionError`, which
`pathlib`'s glob machinery swallows, so such a subtree contributes
nothing. -/
def scanNode : FSNode → List (RelPath × FileMeta)
  | .file _ => []
  | .special => []
  | .dir false _ => []
  | .dir true cs => scanChildren cs

/-- Scan of a readable directory's child list. -/
def scanChildren : List (String × FSNode) → List (RelPath × FileMeta)
  | [] => []
  | (name, n) :: rest =>
      fileEntry name n ++
      (scanNode n).map (fun e => (name :: e.1, e.2)) ++
      scanChildren rest

end

mutual

/-- Well-formedness of a tree: sibling names are distinct, as on a real
file system. -/
def wfNode : FSNode → Bool
  | .file _ => true
  | .special => true
  | .dir _ cs => decide ((cs.map Prod.fst).Nodup) && wfChildren cs

/-- Well-formedness of every tree in a child list. -/
def wfChildren : List (String × FSNode) → Bool
  | [] => true
  | (_, n) :: rest => wfNode n && wfChildren rest

end

/-- Follow a relative path down from a node. -/
def resolve : FSNode → RelPath → Option FSNode
  | t, [] => some t
  | .dir _ cs, s :: rest =>
      match alookup cs s with
      | some c => resolve c rest
      | none => none
  | .file _, _ :: _ => none
  | .special, _ :: _ => none

/-- Source: `scan_tree` (lines 75-84).  `none` models a root that does not
exist: `rglob` starts with an `is_dir` check and yields nothing for it, so
the function returns the empty snapshot rather than failing; a root that is
unreadable or not a directory likewise scans to the empty snapshot. -/
def scan_tree (root : Option FSNode) : Snapshot :=
  match root with
  | none => []
  | some t => scanNode t

/-! ## The single-instance lock (source lines 46-60, 242-253) -/

/-- Source: `single_instance_lock` (lines 46-60) wrapped around the pair
loop of `main` (lines 244-253), as a transformer of the lock-file state
(`some pid` when the file exists, holding that process id).  The
exclusive-create `os.open(..., O_CREAT | O_EXCL | O_RDWR)` sits inside the
`try`, so when the file already exists the raised `FileExistsError` still
triggers the `finally` clause, which unlinks the pre-existing lock file
before the exception propagates out of the `with` statement in `main`; the
pair loop is never entered.  On successful acquisition the file is created
with this process's id, every configured pair is processed, and the
`finally` clause removes the lock file. -/
def single_instance_lock_run {π : Type} (lockFile : Option Nat) (pid : Nat)
    (pairs : List π) : Option Nat × List π × Bool :=
  match lockFile with
  | some _ => (none, [], true)
  | none => (none, pairs, false)

/-! ## Association-list lemmas -/

theorem adel_cons {κ α : Type} [DecidableEq κ] (e : κ × α) (rest : List (κ × α)) (k : κ) :
    adel (e :: rest) k = if e.1 = k then adel rest k else e :: adel rest k := by
  by_cases h : e.1 = k <;> simp [adel, h]

theorem alookup_adel_self {κ α : Type} [DecidableEq κ] (m : List (κ × α)) (k : κ) :
    alookup (adel m k) k = none := by
  induction m with
  | nil => rfl
  | cons e rest ih =>
      rw [adel_cons]
      by_cases h : e.1 = k
      · rw [if_pos h]
        exact ih
      · rw [if_neg h]
        simp [alookup, h, ih]

theorem alookup_adel_ne {κ α : Type} [DecidableEq κ] (m : List (κ × α)) {k k' : κ}
    (h : k' ≠ k) : alookup (adel m k) k' = alookup m k' := by
  induction m with
  | nil => rfl
  | cons e rest ih =>
      rw [adel_cons]
      by_cases he : e.1 = k
      · rw [if_pos he]
        have he' : ¬ e.1 = k' := fun hc => h (hc.symm.trans he)
        rw [ih]
        simp [alookup, he']
      · rw [if_neg he]
        by_cases he' : e.1 = k'
        · simp [alookup, he']
        · simp [alookup, he', ih]

theorem alookup_aset_self {κ α : Type} [DecidableEq κ] (m : List (κ × α)) (k : κ) (v : α) :
    alookup (aset m k v) k = some v := by
  simp [aset, alookup]

theorem alookup_aset_ne {κ α : Type} [DecidableEq κ] (m : List (κ × α)) {k k' : κ} (v : α)
    (h : k' ≠ k) : alookup (aset m k v) k' = alookup m k' := by
  have : ¬ k = k' := fun hc => h hc.symm
  simp [aset, alookup, this, alookup_adel_ne m h]

theorem alookup_isSome_iff {κ α : Type} [DecidableEq κ] {m : List (κ × α)} {k : κ} :
    (alookup m k).isSome ↔ k ∈ m.map Prod.fst := by
  induction m with
  | nil => simp [alookup]
  | cons e rest ih =>
      by_cases h : e.1 = k
      · simp [alookup, h]
      · have : ¬ k = e.1 := fun hc => h hc.symm
        simp [alookup, h, this, ih]

theorem alookup_eq_none_iff {κ α : Type} [DecidableEq κ] {m : List (κ × α)} {k : κ} :
    alookup m k = none ↔ k ∉ m.map Prod.fst := by
  rw [← alookup_isSome_iff, Option.isSome_iff_exists]
  cases alookup m k <;> simp

theorem alookup_of_mem_nodup {κ α : Type} [DecidableEq κ] {m : List (κ × α)} {k : κ} {v : α}
    (hmem : (k, v) ∈ m) (hnd : (m.map Prod.fst).Nodup) : alookup m k = some v := by
  induction m with
  | nil => cases hmem
  | cons e rest ih =>
      simp only [List.map_cons, List.nodup_cons] at hnd
      rcases List.mem_cons.1 hmem with h | h
      · simp [alookup, ← h]
      · have hne : ¬ e.1 = k := by
          intro hc
          exact hnd.1 (hc ▸ List.mem_map_of_mem Prod.fst h)
        simp [alookup, hne, ih h hnd.2]

theorem alookup_append_right {κ α : Type} [DecidableEq κ] {m1 : List (κ × α)}
    (m2 : List (κ × α)) {k : κ} (h : alookup m1 k = none) :
    alookup (m1 ++ m2) k = alookup m2 k := by
  induction m1 with
  | nil => rfl
  | cons e rest ih =>
      by_cases he : e.1 = k
      · simp [alookup, he] at h
      · simp only [alookup, he] at h
        simp [alookup, he, ih h]

/-! ## Sorting and union lemmas -/

theorem mem_insertPath {p x : RelPath} {L : List RelPath} :
    x ∈ insertPath p L ↔ x = p ∨ x ∈ L := by
  induction L with
  | nil => simp [insertPath]
  | cons q rest ih =>
      by_cases h : pathLe p q
      · simp [insertPath, h]
      · simp [insertPath, h, ih]
        tauto

theorem nodup_insertPath {p : RelPath} {L : List RelPath} (hL : L.Nodup) (hp : p ∉ L) :
    (insertPath p L).Nodup := by
  induction L with
  | nil => simp [insertPath]
  | cons q rest ih =>
      simp only [List.nodup_cons] at hL
      have hpq : p ≠ q := by
        intro hc
        exact hp (hc ▸ List.mem_cons_self q rest)
      have hpr : p ∉ rest := fun hc => hp (List.mem_cons_of_mem q hc)
      by_cases h : pathLe p q
      · simp only [insertPath, h, if_pos, List.nodup_cons]
        refine ⟨?_, hL.1, hL.2⟩
        simp only [List.mem_cons]
        tauto
      · simp only [insertPath, h, if_neg, Bool.false_eq_true, not_false_iff, List.nodup_cons]
        refine ⟨?_, ih hL.2 hpr⟩
        rw [mem_insertPath]
        rintro (hc | hc)
        · exact hpq hc.symm
        · exact hL.1 hc

theorem mem_sortPaths {x : RelPath} {L : List RelPath} : x ∈ sortPaths L ↔ x ∈ L := by
  induction L with
  | nil => simp [sortPaths]
  | cons q rest ih => simp [sortPaths, mem_insertPath, ih]

theorem nodup_sortPaths {L : List RelPath} (h : L.Nodup) : (sortPaths L).Nodup := by
  induction L with
  | nil => simp [sortPaths]
  | cons q rest ih =>
      simp only [List.nodup_cons] at h
      exact nodup_insertPath (ih h.2) (fun hc => h.1 (mem_sortPaths.1 hc))

theorem nodup_allPaths (a b : Snapshot) : (allPaths a b).Nodup :=
  nodup_sortPaths (List.nodup_dedup _)

theorem mem_allPaths {p : RelPath} {a b : Snapshot} :
    p ∈ allPaths a b ↔ p ∈ keys a ∨ p ∈ keys b := by
  simp [allPaths, mem_sortPaths, List.mem_dedup]

/-! ## Plan filtering lemmas -/

theorem pathActions_nil (p : RelPath) : pathActions [] p = [] := rfl

theorem pathActions_cons_eq {x : ActionKind × RelPath} {rest : List (ActionKind × RelPath)}
    {p : RelPath} (h : x.2 = p) :
    pathActions (x :: rest) p = x :: pathActions rest p := by
  simp [pathActions, List.filter_cons, h]

theorem pathActions_cons_ne {x : ActionKind × RelPath} {rest : List (ActionKind × RelPath)}
    {p : RelPath} (h : ¬ x.2 = p) :
    pathActions (x :: rest) p = pathActions rest p := by
  simp [pathActions, List.filter_cons, h]

theorem pathActions_filterMap_not_mem {L : List RelPath}
    {g : RelPath → Option (ActionKind × RelPath)}
    (hg : ∀ q x, g q = some x → x.2 = q) {p : RelPath} (hp : p ∉ L) :
    pathActions (L.filterMap g) p = [] := by
  induction L with
  | nil => rfl
  | cons q rest ih =>
      have hq : p ≠ q := by
        intro hc
        exact hp (hc ▸ List.mem_cons_self q rest)
      have hrest : p ∉ rest := fun hc => hp (List.mem_cons_of_mem q hc)
      rw [List.filterMap_cons]
      cases hgq : g q with
      | none => exact ih hrest
      | some x =>
          have hx : ¬ x.2 = p := by
            rw [hg q x hgq]
            exact fun hc => hq hc.symm
          rw [pathActions_cons_ne hx]
          exact ih hrest

theorem pathActions_filterMap_mem {L : List RelPath}
    {g : RelPath → Option (ActionKind × RelPath)}
    (hg : ∀ q x, g q = some x → x.2 = q) {p : RelPath}
    (hN : L.Nodup) (hp : p ∈ L) :
    pathActions (L.filterMap g) p = (g p).toList := by
  induction L with
  | nil => cases hp
  | cons q rest ih =>
      simp only [List.nodup_cons] at hN
      rcases List.mem_cons.1 hp with h | h
      · subst h
        rw [List.filterMap_cons]
        cases hgq : g p with
        | none =>
            simp only [hgq, Option.toList_none]
            exact pathActions_filterMap_not_mem hg hN.1
        | some x =>
            rw [pathActions_cons_eq (hg p x hgq), pathActions_filterMap_not_mem hg hN.1]
            simp [hgq]
      · have hq : ¬ q = p := by
          intro hc
          exact hN.1 (hc ▸ h)
        rw [List.filterMap_cons]
        cases hgq : g q with
        | none => exact ih hN.2 h
        | some x =>
            have hx : ¬ x.2 = p := by
              rw [hg q x hgq]
              exact hq
            rw [pathActions_cons_ne hx]
            exact ih hN.2 h

theorem build_diff_pathActions {localSnap ssdSnap : Snapshot} {p : RelPath}
    (hp : p ∈ keys localSnap ∨ p ∈ keys ssdSnap) (pol : String) :
    pathActions (build_diff localSnap ssdSnap pol) p
      = ((diffAction (alookup localSnap p) (alookup ssdSnap p) pol).map
          (fun k => (k, p))).toList := by
  refine pathActions_filterMap_mem ?_ (nodup_allPaths _ _) (mem_allPaths.2 hp)
  intro q x hx
  obtain ⟨k, hk1, hk2⟩ := Option.map_eq_some'.1 hx
  rw [← hk2]

/-! ## Claim C2 -/

/-- C2: for a path present in exactly one snapshot the diff engine produces
exactly the specified action: only-local yields `COPY_LOCAL_TO_SSD` under
every delete policy; only-mirror yields nothing under `"safe"`, `DELETE_SSD`
under `"mirror"` and `COPY_SSD_TO_LOCAL` under `"sync"`. -/
theorem diff_single_side (localSnap ssdSnap : Snapshot) (p : RelPath) :
    (p ∈ keys localSnap → p ∉ keys ssdSnap →
      ∀ pol, pathActions (build_diff localSnap ssdSnap pol) p
        = [(.COPY_LOCAL_TO_SSD, p)]) ∧
    (p ∉ keys localSnap → p ∈ keys ssdSnap →
      pathActions (build_diff localSnap ssdSnap "safe") p = [] ∧
      pathActions (build_diff localSnap ssdSnap "mirror") p = [(.DELETE_SSD, p)] ∧
      pathActions (build_diff localSnap ssdSnap "sync") p = [(.COPY_SSD_TO_LOCAL, p)]) := by
  constructor
  · intro hl hs pol
    obtain ⟨lm, hlm⟩ := Option.isSome_iff_exists.1 (alookup_isSome_iff.2 hl)
    have hsn : alookup ssdSnap p = none := alookup_eq_none_iff.2 hs
    rw [build_diff_pathActions (Or.inl hl) pol, hlm, hsn]
    rfl
  · intro hl hs
    obtain ⟨sm, hsm⟩ := Option.isSome_iff_exists.1 (alookup_isSome_iff.2 hs)
    have hln : alookup localSnap p = none := alookup_eq_none_iff.2 hl
    refine ⟨?_, ?_, ?_⟩
    · rw [build_diff_pathActions (Or.inr hs) "safe", hln, hsm]
      rfl
    · rw [build_diff_pathActions (Or.inr hs) "mirror", hln, hsm]
      rfl
    · rw [build_diff_pathActions (Or.inr hs) "sync", hln, hsm]
      rfl

/-- Witness for the C2 theorem at concrete snapshots. -/
theorem diff_single_side_witness :
    pathActions (build_diff [(["a"], ⟨3, 0⟩)] [] "mirror") ["a"]
      = [(.COPY_LOCAL_TO_SSD, ["a"])] ∧
    pathActions (build_diff [] [(["b"], ⟨3, 0⟩)] "mirror") ["b"]
      = [(.DELETE_SSD, ["b"])] :=
  ⟨(diff_single_side [(["a"], ⟨3, 0⟩)] [] ["a"]).1 (by decide) (by decide) "mirror",
   ((diff_single_side [] [(["b"], ⟨3, 0⟩)] ["b"]).2 (by decide) (by decide)).2.1⟩

/-! ## Claim C3 -/

/-- C3: for a path present in both snapshots, when neither side's mtime
exceeds the other's by more than the 1 ms tolerance, the diff engine
produces no action for that path, regardless of the sizes. -/
theorem diff_tie_no_action (localSnap ssdSnap : Snapshot) (p : RelPath)
    (lm sm : FileMeta) (hl : alookup localSnap p = some lm)
    (hs : alookup ssdSnap p = some sm)
    (h1 : lm.newer_than sm = false) (h2 : sm.newer_than lm = false)
    (pol : String) :
    pathActions (build_diff localSnap ssdSnap pol) p = [] := by
  have hmem : p ∈ keys localSnap :=
    alookup_isSome_iff.1 (by rw [hl]; rfl)
  rw [build_diff_pathActions (Or.inl hmem) pol, hl, hs]
  simp [diffAction, h1, h2]

/-- Witness for the C3 theorem: equal-within-tolerance mtimes but different
sizes still produce no action. -/
theorem diff_tie_no_action_witness :
    pathActions (build_diff [(["a"], ⟨10, 0⟩)] [(["a"], ⟨999, 1/2000⟩)] "sync") ["a"] = [] :=
  diff_tie_no_action [(["a"], ⟨10, 0⟩)] [(["a"], ⟨999, 1/2000⟩)] ["a"]
    ⟨10, 0⟩ ⟨999, 1/2000⟩ rfl rfl
    (by simp only [FileMeta.newer_than, decide_eq_false_iff_not]; norm_num)
    (by simp only [FileMeta.newer_than, decide_eq_false_iff_not]; norm_num) "sync"

/-! ## Temporary-sibling and safe-copy lemmas -/

theorem tmpPath_ne (p : RelPath) : tmpPath p ≠ p := by
  induction p with
  | nil => simp [tmpPath]
  | cons s rest ih =>
      cases rest with
      | nil =>
          simp only [tmpPath, ne_eq, List.cons.injEq, and_true]
          intro h
          have hl := congrArg String.length h
          rw [String.length_append] at hl
          have h4 : (".tmp" : String).length = 4 := rfl
          omega
      | cons r rs =>
          intro h
          have : tmpPath (r :: rs) = r :: rs := (List.cons.injEq _ _ _ _ ▸ h).2
          exact ih this

/-! ## Claim C7 -/

/-- C7: `safe_copy` writes through the temporary sibling and renames it
over the destination in one operation, so at every crash point between the
start of the temporary write and the final rename the destination path
still holds exactly its previous file under its final name (never a
truncated or partial one), while a completed `safe_copy` installs the full
source bytes at the destination. -/
theorem safe_copy_atomic (fs : FS) (dst : RelPath) (f : File) (m : ℚ) :
    (∀ fs' ∈ safe_copy_crash_states fs dst f m, alookup fs' dst = alookup fs dst) ∧
    alookup (safe_copy fs dst f) dst = some f := by
  constructor
  · intro fs' h
    rcases List.mem_cons.1 h with h | h
    · rw [h]
    · obtain ⟨part, hpart, hfs⟩ := List.mem_map.1 h
      rw [← hfs]
      exact alookup_aset_ne _ _ (fun hc => tmpPath_ne dst hc.symm)
  · unfold safe_copy
    rw [alookup_adel_ne _ (fun hc => tmpPath_ne dst hc.symm), alookup_aset_self]

/-- Witness for the C7 theorem: a crash state in which only the first byte
reached the temporary file leaves the old destination content in place. -/
theorem safe_copy_atomic_witness :
    alookup (aset [(["a.txt"], (⟨[1, 2, 3], 5⟩ : File))] (tmpPath ["a.txt"]) ⟨[9], 0⟩)
        ["a.txt"]
      = alookup [(["a.txt"], (⟨[1, 2, 3], 5⟩ : File))] ["a.txt"] :=
  (safe_copy_atomic [(["a.txt"], ⟨[1, 2, 3], 5⟩)] ["a.txt"] ⟨[9, 9], 7⟩ 0).1
    (aset [(["a.txt"], ⟨[1, 2, 3], 5⟩)] (tmpPath ["a.txt"]) ⟨[9], 0⟩)
    (by simp [safe_copy_crash_states, List.inits])

/-! ## Backup-folder lemmas -/

theorem backupInto_cons (e : String × BFolder) (rest : List (String × BFolder))
    (ts : String) (rel : RelPath) (f : File) :
    backupInto (e :: rest) ts rel f
      = (if e.1 = ts then (e.1, copy_for_backup e.2 rel f) else e) ::
          backupInto rest ts rel f := rfl

theorem alookup_backupInto (dirs : List (String × BFolder)) (ts : String) (rel : RelPath)
    (f : File) (nm : String) :
    alookup (backupInto dirs ts rel f) nm
      = (alookup dirs nm).map
          (fun bf => if nm = ts then copy_for_backup bf rel f else bf) := by
  induction dirs with
  | nil => rfl
  | cons e rest ih =>
      rw [backupInto_cons]
      by_cases hts : e.1 = ts
      · rw [if_pos hts]
        by_cases he : e.1 = nm
        · have hnm : nm = ts := he ▸ hts
          simp [alookup, he, hnm]
        · simp [alookup, he, ih]
      · rw [if_neg hts]
        by_cases he : e.1 = nm
        · have hnm : ¬ nm = ts := fun hc => hts (he.trans hc)
          simp [alookup, he, hnm]
        · simp [alookup, he, ih]

theorem execAction_pairBackup_mirror (st : PairState) (ts : String) (rel : RelPath)
    (f : File) (k : ActionKind)
    (hk : k = .UPDATE_SSD ∨ k = .DELETE_SSD ∨ k = .COPY_LOCAL_TO_SSD)
    (hf : alookup st.ssdFS rel = some f) :
    (execAction ts st (k, rel)).pairBackup = backupInto st.pairBackup ts rel f := by
  rcases hk with hk | hk | hk <;> subst hk <;>
    simp only [execAction, hf] <;>
    cases halookup : alookup st.localFS rel <;>
    simp [halookup]

/-! ## Claim C1 -/

/-- C1: executing any mirror-mutating action (`UPDATE_SSD`, `DELETE_SSD`,
`COPY_LOCAL_TO_SSD`) in a state where a file exists at the mirror path
places a copy of that file's pre-action content into the run's backup
folder at the same relative path; in `execAction` this backup step is taken
before the overwrite or removal, which runs on the already-backed-up
state. -/
theorem backup_before_mutate (st : PairState) (ts : String) (k : ActionKind)
    (rel : RelPath) (f : File)
    (hk : k = .UPDATE_SSD ∨ k = .DELETE_SSD ∨ k = .COPY_LOCAL_TO_SSD)
    (hf : alookup st.ssdFS rel = some f)
    (hts : (alookup st.pairBackup ts).isSome) :
    ∃ bf, alookup (execAction ts st (k, rel)).pairBackup ts = some bf ∧
      alookup bf rel = some f := by
  obtain ⟨bf0, hbf0⟩ := Option.isSome_iff_exists.1 hts
  refine ⟨copy_for_backup bf0 rel f, ?_, ?_⟩
  · rw [execAction_pairBackup_mirror st ts rel f k hk hf, alookup_backupInto, hbf0]
    simp
  · exact alookup_aset_self bf0 rel f

/-- Witness for the C1 theorem: an `UPDATE_SSD` on a pre-existing mirror
file lands its old content in the run's backup folder. -/
theorem backup_before_mutate_witness :
    ∃ bf, alookup (execAction "T"
        ⟨[(["a"], ⟨[1], 2⟩)], [(["a"], ⟨[5], 0⟩)], [("T", [])]⟩
        (.UPDATE_SSD, ["a"])).pairBackup "T" = some bf ∧
      alookup bf ["a"] = some ⟨[5], 0⟩ :=
  backup_before_mutate ⟨[(["a"], ⟨[1], 2⟩)], [(["a"], ⟨[5], 0⟩)], [("T", [])]⟩ "T"
    .UPDATE_SSD ["a"] ⟨[5], 0⟩ (Or.inl rfl) rfl rfl

/-! ## Claim C4 (corrected) -/

/-- C4 as stated is false on the code: `make_ts_folder` runs
unconditionally right after the dry-run check (line 192), before the action
loop, so a pair whose computed plan is empty still ends the run with a
fresh timestamp folder.  Concretely, with both trees empty the plan is
empty and the folder is created anyway. -/
theorem ts_folder_not_lazy_counterexample :
    build_diff (metaMap ([] : FS)) (metaMap ([] : FS)) "safe" = [] ∧
    (process_pair false "safe" "20260101-000000" 0 14
        ⟨[], [], []⟩).pairBackup = [("20260101-000000", [])] :=
  ⟨rfl, rfl⟩

theorem alookup_make_ts_folder_isSome (dirs : List (String × BFolder)) (ts : String) :
    (alookup (make_ts_folder dirs ts) ts).isSome := by
  unfold make_ts_folder
  by_cases h : (alookup dirs ts).isSome
  · rw [if_pos h]
    exact h
  · rw [if_neg h]
    have hn : alookup dirs ts = none := Option.not_isSome_iff_eq_none.1 h
    rw [alookup_append_right _ hn]
    simp [alookup]

theorem execAction_pairBackup_cases (ts : String) (st : PairState)
    (a : ActionKind × RelPath) :
    (execAction ts st a).pairBackup = st.pairBackup ∨
    ∃ f, (execAction ts st a).pairBackup = backupInto st.pairBackup ts a.2 f := by
  rcases a with ⟨k, rel⟩
  cases k with
  | COPY_SSD_TO_LOCAL =>
      left
      cases hs : alookup st.ssdFS rel <;> simp [execAction, hs]
  | DELETE_SSD =>
      cases hs : alookup st.ssdFS rel with
      | none =>
          left
          simp [execAction, hs]
      | some f =>
          exact Or.inr ⟨f, execAction_pairBackup_mirror st ts rel f _
            (Or.inr (Or.inl rfl)) hs⟩
  | UPDATE_SSD =>
      cases hs : alookup st.ssdFS rel with
      | none =>
          left
          cases hl : alookup st.localFS rel <;> simp [execAction, hs, hl]
      | some f =>
          exact Or.inr ⟨f, execAction_pairBackup_mirror st ts rel f _ (Or.inl rfl) hs⟩
  | COPY_LOCAL_TO_SSD =>
      cases hs : alookup st.ssdFS rel with
      | none =>
          left
          cases hl : alookup st.localFS rel <;> simp [execAction, hs, hl]
      | some f =>
          exact Or.inr ⟨f, execAction_pairBackup_mirror st ts rel f _
            (Or.inr (Or.inr rfl)) hs⟩

theorem execAction_preserves_folder (ts : String) (st : PairState)
    (a : ActionKind × RelPath) (nm : String)
    (h : (alookup st.pairBackup nm).isSome) :
    (alookup (execAction ts st a).pairBackup nm).isSome := by
  rcases execAction_pairBackup_cases ts st a with h1 | ⟨f, h1⟩
  · rw [h1]
    exact h
  · obtain ⟨v, hv⟩ := Option.isSome_iff_exists.1 h
    rw [h1, alookup_backupInto, hv]
    rfl

theorem foldl_execAction_preserves_folder (ts nm : String)
    (plan : List (ActionKind × RelPath)) :
    ∀ st : PairState, (alookup st.pairBackup nm).isSome →
      (alookup (plan.foldl (execAction ts) st).pairBackup nm).isSome := by
  induction plan with
  | nil => exact fun st h => h
  | cons a rest ih =>
      intro st h
      exact ih _ (execAction_preserves_folder ts st a nm h)

theorem process_pair_not_dry (delete_policy ts : String) (now : ℚ) (retention : Nat)
    (st : PairState) :
    process_pair false delete_policy ts now retention st
      = (build_diff (metaMap st.localFS) (metaMap st.ssdFS) delete_policy).foldl
          (execAction ts)
          ⟨st.localFS, st.ssdFS,
            make_ts_folder (purge_old_backups st.pairBackup now retention) ts⟩ := rfl

/-- C4 amended: in a non-dry run the timestamped backup folder is created
eagerly — unconditionally, right after the dry-run check and before any
action executes — so it exists at the end of every non-dry run, whether or
not any backup-worthy action (or indeed any action at all) was in the
plan. -/
theorem ts_folder_created_eagerly (delete_policy ts : String) (now : ℚ)
    (retention : Nat) (st : PairState) :
    (alookup (process_pair false delete_policy ts now retention st).pairBackup
      ts).isSome := by
  rw [process_pair_not_dry]
  exact foldl_execAction_preserves_folder ts ts _ _
    (alookup_make_ts_folder_isSome _ ts)

/-! ## Claim C5 -/

/-- C5: in dry-run mode `process_pair` computes the plan but executes
nothing and creates no backup folder — the result is exactly the input
state with its backup directory purged, so the retention purge has still
run for the pair before the dry-run short-circuit and expired folders are
deleted even in a dry run. -/
theorem dry_run_only_purges (delete_policy ts : String) (now : ℚ) (retention : Nat)
    (st : PairState) :
    process_pair true delete_policy ts now retention st
      = { st with pairBackup := purge_old_backups st.pairBackup now retention } := rfl

/-! ## Claim C9 -/

/-- C9: `safe_copy` uses the fixed sibling `dst + ".tmp"` as its temporary
file, so executing `COPY_LOCAL_TO_SSD` for `p` is not confined to `p`: a
distinct mirror file already stored at the sibling path `p + ".tmp"` is
overwritten by the temporary write and then renamed away — after the action
it is gone from the mirror, while the content of every backup folder at
that sibling path is exactly what it was before, i.e. the destroyed file
was never backed up. -/
theorem execAction_copy_local_some (ts : String) (st : PairState) (p : RelPath)
    (fl f0 : File) (hl : alookup st.localFS p = some fl)
    (hs : alookup st.ssdFS p = some f0) :
    execAction ts st (.COPY_LOCAL_TO_SSD, p)
      = ⟨st.localFS, safe_copy st.ssdFS p fl, backupInto st.pairBackup ts p f0⟩ := by
  simp [execAction, hs, hl]

theorem execAction_copy_local_fresh (ts : String) (st : PairState) (p : RelPath)
    (fl : File) (hl : alookup st.localFS p = some fl)
    (hs : alookup st.ssdFS p = none) :
    execAction ts st (.COPY_LOCAL_TO_SSD, p)
      = { st with ssdFS := safe_copy st.ssdFS p fl } := by
  simp [execAction, hs, hl]

/-- C9: `safe_copy` uses the fixed sibling `dst + ".tmp"` as its temporary
file, so executing `COPY_LOCAL_TO_SSD` for `p` is not confined to `p`: a
distinct mirror file already stored at the sibling path `p + ".tmp"` is
overwritten by the temporary write and then renamed away — after the action
it is gone from the mirror, while the content of every backup folder at
that sibling path is exactly what it was before, i.e. the destroyed file
was never backed up. -/
theorem tmp_sibling_clobbered (st : PairState) (ts : String) (p : RelPath)
    (fl g : File)
    (hl : alookup st.localFS p = some fl)
    (hg : alookup st.ssdFS (tmpPath p) = some g) :
    alookup (execAction ts st (.COPY_LOCAL_TO_SSD, p)).ssdFS (tmpPath p) = none ∧
    ∀ nm, (alookup (execAction ts st (.COPY_LOCAL_TO_SSD, p)).pairBackup nm).map
        (fun bf => alookup bf (tmpPath p))
      = (alookup st.pairBackup nm).map (fun bf => alookup bf (tmpPath p)) := by
  cases hs : alookup st.ssdFS p with
  | none =>
      rw [execAction_copy_local_fresh ts st p fl hl hs]
      exact ⟨alookup_adel_self _ _, fun nm => rfl⟩
  | some f0 =>
      rw [execAction_copy_local_some ts st p fl f0 hl hs]
      refine ⟨alookup_adel_self _ _, ?_⟩
      intro nm
      show (alookup (backupInto st.pairBackup ts p f0) nm).map _ = _
      rw [alookup_backupInto]
      have haux : ∀ bf : BFolder,
          alookup (copy_for_backup bf p f0) (tmpPath p) = alookup bf (tmpPath p) :=
        fun bf => alookup_aset_ne bf f0 (tmpPath_ne p)
      by_cases hnm : nm = ts
      · simp only [if_pos hnm]
        cases hbk : alookup st.pairBackup nm <;> simp [hbk, haux]
      · simp only [if_neg hnm]
        cases hbk : alookup st.pairBackup nm <;> simp [hbk]

/-- Witness for the C9 theorem: a mirror file literally named `a.tmp` is
destroyed, without any backup, by the copy action for `a`. -/
theorem tmp_sibling_clobbered_witness :
    alookup (execAction "T"
        ⟨[(["a"], ⟨[1], 2⟩)], [(["a.tmp"], ⟨[7], 3⟩)], [("T", [])]⟩
        (.COPY_LOCAL_TO_SSD, ["a"])).ssdFS (tmpPath ["a"]) = none :=
  (tmp_sibling_clobbered ⟨[(["a"], ⟨[1], 2⟩)], [(["a.tmp"], ⟨[7], 3⟩)], [("T", [])]⟩
    "T" ["a"] ⟨[1], 2⟩ ⟨[7], 3⟩ rfl (by simp [tmpPath, alookup])).1

/-! ## Claim C10 -/

/-- C10: when the lock file already exists at entry, the exclusive create
raises before the body is reached, yet the `finally` clause still runs: the
pre-existing lock file (owned by the other, still-running invocation) is
unlinked before the exception propagates, so the failing invocation
processes no pair but does not leave the lock-file state unchanged. -/
theorem lock_contention_unlinks_existing {π : Type} (otherPid pid : Nat)
    (pairs : List π) :
    single_instance_lock_run (some otherPid) pid pairs = (none, [], true) := rfl

/-! ## Claim C6 -/

theorem purgeRemoves_iff (now : ℚ) (retention : Nat) (name : String) :
    purgeRemoves now retention name = true ↔
      ∃ t, strptimeTS name = some t ∧
        now - (tsToSec t : ℚ) > 86400 * (retention : ℚ) := by
  unfold purgeRemoves
  cases hp : strptimeTS name with
  | none => simp
  | some t => simp [decide_eq_true_eq]

/-- C6: `purge_old_backups` removes an immediate child of the pair's backup
directory exactly when its name parses under the fixed `%Y%m%d-%H%M%S`
format and the parsed timestamp is strictly older than `now` minus the
retention window; a child at the boundary or newer is retained, and a child
whose name does not parse is never removed. -/
theorem purge_exactly_expired (now : ℚ) (retention : Nat)
    (dirs : List (String × BFolder)) (e : String × BFolder) (he : e ∈ dirs) :
    (e ∉ purge_old_backups dirs now retention ↔
      ∃ t, strptimeTS e.1 = some t ∧
        now - (tsToSec t : ℚ) > 86400 * (retention : ℚ)) ∧
    (strptimeTS e.1 = none → e ∈ purge_old_backups dirs now retention) ∧
    (∀ t, strptimeTS e.1 = some t →
      now - (tsToSec t : ℚ) ≤ 86400 * (retention : ℚ) →
      e ∈ purge_old_backups dirs now retention) := by
  have hmem : e ∈ purge_old_backups dirs now retention ↔
      purgeRemoves now retention e.1 = false := by
    simp [purge_old_backups, List.mem_filter, he]
  refine ⟨?_, ?_, ?_⟩
  · rw [← purgeRemoves_iff now retention e.1]
    constructor
    · intro hno
      cases hb : purgeRemoves now retention e.1 with
      | false => exact absurd (hmem.2 hb) hno
      | true => rfl
    · intro htrue hmemf
      rw [hmem, htrue] at hmemf
      cases hmemf
  · intro hp
    apply hmem.2
    simp [purgeRemoves, hp]
  · intro t hp hle
    apply hmem.2
    simp only [purgeRemoves, hp, decide_eq_false_iff_not]
    exact not_lt.2 hle

/-- Witness for the C6 theorem: with `now` one second past the retention
boundary of `20200101-000000`, that folder is removed while the
non-parsing child `junk` is retained. -/
theorem purge_exactly_expired_witness :
    ("junk", ([] : BFolder)) ∈ purge_old_backups
        [("20200101-000000", []), ("junk", [])] 63714729601 14 ∧
    ("20200101-000000", ([] : BFolder)) ∉ purge_old_backups
        [("20200101-000000", []), ("junk", [])] 63714729601 14 := by
  constructor
  · exact (purge_exactly_expired 63714729601 14
      [("20200101-000000", []), ("junk", [])] ("junk", []) (by simp)).2.1 rfl
  · refine (purge_exactly_expired 63714729601 14
      [("20200101-000000", []), ("junk", [])] ("20200101-000000", []) (by simp)).1.2 ?_
    refine ⟨⟨2020, 1, 1, 0, 0, 0⟩, rfl, ?_⟩
    have h1 : tsToSec ⟨2020, 1, 1, 0, 0, 0⟩ = 63713520000 := rfl
    rw [h1]
    norm_num

/-! ## Claim C8 -/

theorem wfChildren_mem {cs : List (String × FSNode)} {nm : String} {n : FSNode}
    (hw : wfChildren cs = true) (hmem : (nm, n) ∈ cs) : wfNode n = true := by
  induction cs with
  | nil => cases hmem
  | cons e rest ih =>
      rcases e with ⟨a, n0⟩
      rw [wfChildren, Bool.and_eq_true] at hw
      rcases List.mem_cons.1 hmem with h | h
      · cases h
        exact hw.1
      · exact ih hw.2 h

theorem mem_fileEntry {x : RelPath × FileMeta} {nm : String} {n : FSNode}
    (hx : x ∈ fileEntry nm n) : ∃ f, n = FSNode.file f ∧ x = ([nm], f.meta) := by
  cases n with
  | file f =>
      rw [fileEntry, List.mem_singleton] at hx
      exact ⟨f, rfl, hx⟩
  | special => rw [fileEntry] at hx; cases hx
  | dir b cs => rw [fileEntry] at hx; cases hx

theorem mem_scanChildren_elim {x : RelPath × FileMeta} {cs : List (String × FSNode)}
    (hx : x ∈ scanChildren cs) :
    ∃ nm n, (nm, n) ∈ cs ∧
      ((∃ f, n = FSNode.file f ∧ x = ([nm], f.meta)) ∨
       (∃ q, x.1 = nm :: q ∧ (q, x.2) ∈ scanNode n)) := by
  induction cs with
  | nil => rw [scanChildren] at hx; cases hx
  | cons e rest ih =>
      rcases e with ⟨nm0, n0⟩
      rw [scanChildren] at hx
      rcases List.mem_append.1 hx with hx1 | hxC
      · rcases List.mem_append.1 hx1 with hxA | hxB
        · obtain ⟨f, hn, hxf⟩ := mem_fileEntry hxA
          exact ⟨nm0, n0, List.mem_cons_self _ _, Or.inl ⟨f, hn, hxf⟩⟩
        · obtain ⟨e0, he0, hxe⟩ := List.mem_map.1 hxB
          refine ⟨nm0, n0, List.mem_cons_self _ _, Or.inr ⟨e0.1, ?_, ?_⟩⟩
          · rw [← hxe]
          · rw [← hxe]
            exact he0
      · obtain ⟨nm, n, hmem, h⟩ := ih hxC
        exact ⟨nm, n, List.mem_cons_of_mem _ hmem, h⟩

theorem scanNode_only_files : ∀ (p : RelPath) (t : FSNode), wfNode t = true →
    ∀ mta : FileMeta, (p, mta) ∈ scanNode t →
      ∃ f, resolve t p = some (.file f) ∧ mta = f.meta := by
  intro p
  induction p with
  | nil =>
      intro t hwf mta hmem
      cases t with
      | file f => rw [scanNode] at hmem; cases hmem
      | special => rw [scanNode] at hmem; cases hmem
      | dir b cs =>
          cases b with
          | false => rw [scanNode] at hmem; cases hmem
          | true =>
              rw [scanNode] at hmem
              obtain ⟨nm, n, hcs, h⟩ := mem_scanChildren_elim hmem
              rcases h with ⟨f, hn, hx⟩ | ⟨q, hq, hmem2⟩
              · have := congrArg Prod.fst hx
                simp at this
              · simp at hq
  | cons s rest ih =>
      intro t hwf mta hmem
      cases t with
      | file f => rw [scanNode] at hmem; cases hmem
      | special => rw [scanNode] at hmem; cases hmem
      | dir b cs =>
          cases b with
          | false => rw [scanNode] at hmem; cases hmem
          | true =>
              rw [scanNode] at hmem
              obtain ⟨nm, n, hcs, h⟩ := mem_scanChildren_elim hmem
              rw [wfNode, Bool.and_eq_true] at hwf
              have hnd : (cs.map Prod.fst).Nodup := of_decide_eq_true hwf.1
              have hwfc : wfChildren cs = true := hwf.2
              have hlk : alookup cs nm = some n := alookup_of_mem_nodup hcs hnd
              rcases h with ⟨f, hn, hx⟩ | ⟨q, hq, hmem2⟩
              · have hfst := congrArg Prod.fst hx
                have hsnd := congrArg Prod.snd hx
                simp only at hfst hsnd
                injection hfst with h1 h2
                subst h1
                subst h2
                refine ⟨f, ?_, hsnd⟩
                simp only [resolve, hlk, hn]
              · simp only at hq
                injection hq with h1 h2
                subst h1
                subst h2
                have hwfn : wfNode n = true := wfChildren_mem hwfc hcs
                obtain ⟨f, hres, hmta⟩ := ih n hwfn mta hmem2
                refine ⟨f, ?_, hmta⟩
                simp only [resolve, hlk]
                exact hres

/-- C8: a root that does not exist scans to the empty snapshot rather than
failing, and so does an unreadable root; on any well-formed tree every
snapshot entry comes from a regular file, keyed by its path relative to the
root — directories and other non-regular entries are never recorded.  (The
model is a pure function of the tree, matching the scanner's read-only
traversal.) -/
theorem scan_tree_contract :
    scan_tree none = [] ∧
    (∀ cs : List (String × FSNode), scan_tree (some (.dir false cs)) = []) ∧
    (∀ (t : FSNode) (p : RelPath) (mta : FileMeta), wfNode t = true →
      (p, mta) ∈ scan_tree (some t) →
      ∃ f, resolve t p = some (.file f) ∧ mta = f.meta) := by
  refine ⟨rfl, ?_, ?_⟩
  · intro cs
    rw [scan_tree, scanNode]
  · intro t p mta hwf hmem
    exact scanNode_only_files p t hwf mta hmem

/-- Witness for the C8 theorem: the file at `d/b` in a small two-level tree
is reported at its relative path with its metadata. -/
theorem scan_tree_contract_witness :
    ∃ f, resolve (FSNode.dir true [("a", FSNode.file ⟨[1], 2⟩),
        ("d", FSNode.dir true [("b", FSNode.file ⟨[3], 4⟩)])]) ["d", "b"]
      = some (.file f) ∧ (⟨1, 4⟩ : FileMeta) = f.meta :=
  scan_tree_contract.2.2
    (FSNode.dir true [("a", FSNode.file ⟨[1], 2⟩),
      ("d", FSNode.dir true [("b", FSNode.file ⟨[3], 4⟩)])])
    ["d", "b"] ⟨1, 4⟩
    (by simp [wfNode, wfChildren])
    (by simp [scan_tree, scanNode, scanChildren, fileEntry, File.meta])
